import Mathlib

/-!
Verification development for the report-enrichment script
`scripts/update-via-map-file.py` of the checkov SAST-scan workflow repository.

The script is embedded shallowly:

* Python strings are modelled as `List Char`; the ASCII fragment of Python's
  whitespace set and of `str.upper` is modelled (all identifiers, labels and
  markers manipulated by the script are ASCII).
* The CSV severity source is modelled as an optional list of rows, each row a
  list of fields (`csv.reader` output); `none` models an absent file
  (`os.path.exists` false).
* The Python `dict` built by `load_severity_map` is modelled as an association
  list where a later insert shadows earlier ones (`mapInsert` prepends and
  `mapLookup` returns the first, i.e. most recent, binding).
* The SARIF JSON document is modelled by the record shapes the script reads
  (`runs[*].tool.driver.rules[*]` with `id`, `properties`,
  `defaultConfiguration`); a run whose `tool`/`driver`/`rules` keys are absent
  behaves exactly like one with an empty rule list, so the `dict.get`
  defaulting collapses to a total field.
* Filesystem effects and Python exceptions are modelled by an explicit
  per-directory state and an error option: an uncaught exception aborts the
  remainder of the run; the process exit status is `0` on a normal return of
  `main` and `1` on an uncaught exception (the script never calls `sys.exit`).
-/

/-! ### Python string primitives (ASCII fragment) -/

/-- The ASCII whitespace characters recognised by Python's `str.strip` and by
the regular-expression class backslash-s: space, tab, newline, carriage
return, vertical tab, form feed. -/
def isPySpace (c : Char) : Bool :=
  c = ' ' || c = '\t' || c = '\n' || c = '\r' || c = '\x0b' || c = '\x0c'

/-- Characters matched by the regex class [A-Z0-9_] used for check
identifiers. -/
def isIdChar (c : Char) : Bool :=
  ('A' ≤ c && c ≤ 'Z') || ('0' ≤ c && c ≤ '9') || c = '_'

/-- `pyStrip` models Python `str.strip()`: remove leading and trailing
whitespace. -/
def pyStrip (l : List Char) : List Char :=
  ((l.dropWhile isPySpace).reverse.dropWhile isPySpace).reverse

/-- `pyUpper` models Python `str.upper()` on ASCII text. -/
def pyUpper (l : List Char) : List Char :=
  l.map Char.toUpper

/-- `stripLead pat l` returns `some rest` when `l = pat ++ rest`, else `none`
(literal-segment matching at the start of a string). -/
def stripLead : List Char → List Char → Option (List Char)
  | [], l => some l
  | _ :: _, [] => none
  | p :: ps, c :: cs => if p = c then stripLead ps cs else none

/-- `hasLead pat l` is true when `l` starts with the segment `pat`
(Python `str.startswith`). -/
def hasLead : List Char → List Char → Bool
  | [], _ => true
  | _ :: _, [] => false
  | p :: ps, c :: cs => p = c && hasLead ps cs

/-- `containsTok tok l` is true when `tok` occurs contiguously anywhere in `l`
(Python's `tok in l` substring test). -/
def containsTok (tok : List Char) : List Char → Bool
  | [] => hasLead tok []
  | c :: rest => hasLead tok (c :: rest) || containsTok tok rest

/-! ### Severity vocabulary and the constant score tables -/

def strINFO : List Char := ['I', 'N', 'F', 'O']
def strLOW : List Char := ['L', 'O', 'W']
def strMEDIUM : List Char := ['M', 'E', 'D', 'I', 'U', 'M']
def strHIGH : List Char := ['H', 'I', 'G', 'H']
def strCRITICAL : List Char := ['C', 'R', 'I', 'T', 'I', 'C', 'A', 'L']

def str00 : List Char := ['0', '.', '0']
def str30 : List Char := ['3', '.', '0']
def str60 : List Char := ['6', '.', '0']
def str80 : List Char := ['8', '.', '0']
def str90 : List Char := ['9', '.', '0']

def strNote : List Char := ['n', 'o', 't', 'e']
def strWarning : List Char := ['w', 'a', 'r', 'n', 'i', 'n', 'g']
def strError : List Char := ['e', 'r', 'r', 'o', 'r']

/-- Lookup in a constant association table (used for the two module-level
tables; total on the five labels, with the caller supplying the `dict.get`
default). -/
def assocLookup (table : List (List Char × List Char)) (k : List Char) :
    Option (List Char) :=
  match table with
  | [] => none
  | (k', v) :: rest => if k' = k then some v else assocLookup rest k

/-- The module constant SEVERITY_TO_SCORE. -/
def SEVERITY_TO_SCORE : List (List Char × List Char) :=
  [(strINFO, str00), (strLOW, str30), (strMEDIUM, str60),
   (strHIGH, str80), (strCRITICAL, str90)]

/-- The module constant SEVERITY_TO_LEVEL. -/
def SEVERITY_TO_LEVEL : List (List Char × List Char) :=
  [(strINFO, strNote), (strLOW, strNote), (strMEDIUM, strWarning),
   (strHIGH, strError), (strCRITICAL, strError)]

/-- SEVERITY_TO_SCORE.get(label, "0.0"). -/
def severity_to_score (lbl : List Char) : List Char :=
  (assocLookup SEVERITY_TO_SCORE lbl).getD str00

/-- SEVERITY_TO_LEVEL.get(label, "note"). -/
def severity_to_level (lbl : List Char) : List Char :=
  (assocLookup SEVERITY_TO_LEVEL lbl).getD strNote

/-! ### The severity map (Python dict) -/

/-- The rule-id to severity-label mapping. An association list where the most
recent insert is found first, which yields exactly the Python `dict`
lookup/overwrite behaviour. -/
abbrev SMap : Type := List (List Char × List Char)

/-- Assignment `mapping[rule_id] = severity_text`: the new binding shadows any
older binding of the same key. -/
def mapInsert (k v : List Char) (m : SMap) : SMap :=
  (k, v) :: m

/-- Dict lookup: first (most recent) binding of the key wins. -/
def mapLookup (m : SMap) (k : List Char) : Option (List Char) :=
  match m with
  | [] => none
  | (k', v) :: rest => if k' = k then some v else mapLookup rest k

/-- Dict truthiness `not severity_map`: the dict is empty iff no row was ever
inserted. -/
def mapIsEmpty (m : SMap) : Bool :=
  match m with
  | [] => true
  | _ :: _ => false

/-! ### load_severity_map -/

/-- One iteration of the row loop of `load_severity_map`. -/
def load_row_step (mapping : SMap) (row : List (List Char)) : SMap :=
  if row.length < 2 then mapping
  else
    let rule_id := pyStrip (row.getD 0 [])
    let severity_text := pyUpper (pyStrip (row.getD 1 []))
    -- GHA does not have an INFO severity level, so the script substitutes LOW
    let severity_text := if severity_text = strINFO then strLOW else severity_text
    if (assocLookup SEVERITY_TO_SCORE severity_text).isSome then
      mapInsert rule_id severity_text mapping
    else mapping

/-- `load_severity_map(csv_path)`.  The file is modelled as `none` when
`os.path.exists` fails (the function then returns the empty dict) and as the
parsed row list otherwise. -/
def load_severity_map (csv_file : Option (List (List (List Char)))) : SMap :=
  match csv_file with
  | none => []
  | some rows => rows.foldl load_row_step []

/-! ### C1: contents of the loaded severity map -/

/-- The fixed five-label vocabulary of the specification. -/
def fixedSet : List (List Char) := [strINFO, strLOW, strMEDIUM, strHIGH, strCRITICAL]

/-- The identifier a row contributes: its first field, stripped. -/
def rowKey (row : List (List Char)) : List Char := pyStrip (row.getD 0 [])

/-- The normalized label of a row: second field, stripped and uppercased. -/
def rowLabel (row : List (List Char)) : List Char := pyUpper (pyStrip (row.getD 1 []))

/-- The INFO-to-LOW substitution the script applies before the range check. -/
def substInfo (l : List Char) : List Char := if l = strINFO then strLOW else l

theorem load_row_step_eq (m : SMap) (row : List (List Char)) :
    load_row_step m row =
      if row.length < 2 then m
      else if (assocLookup SEVERITY_TO_SCORE (substInfo (rowLabel row))).isSome then
        mapInsert (rowKey row) (substInfo (rowLabel row)) m
      else m := rfl

theorem mem_fixedSet_isSome {l : List Char} (h : l ∈ fixedSet) :
    (assocLookup SEVERITY_TO_SCORE (substInfo l)).isSome = true := by
  fin_cases h <;> decide

theorem load_fold_keep (rows : List (List (List Char))) :
    ∀ (acc : SMap) (k v : List Char), mapLookup acc k = some v →
      (∀ r ∈ rows, rowKey r = k → substInfo (rowLabel r) = v) →
      mapLookup (rows.foldl load_row_step acc) k = some v := by
  induction rows with
  | nil => intro acc k v h _; simpa using h
  | cons r rs ih =>
    intro acc k v h hagree
    rw [List.foldl_cons]
    refine ih _ k v ?_ (fun r' hmem hkey => hagree r' (List.mem_cons_of_mem _ hmem) hkey)
    rw [load_row_step_eq]
    by_cases hlen : r.length < 2
    · simpa [hlen] using h
    · by_cases hins : (assocLookup SEVERITY_TO_SCORE (substInfo (rowLabel r))).isSome = true
      · by_cases hkey : rowKey r = k
        · have hv : substInfo (rowLabel r) = v := hagree r (List.mem_cons_self r rs) hkey
          rw [if_neg hlen, if_pos hins]
          simp [mapInsert, mapLookup, hkey, hv]
        · simpa [hlen, hins, mapInsert, mapLookup, hkey] using h
      · simpa [hlen, hins] using h

theorem load_fold_mem (rows : List (List (List Char))) :
    ∀ (acc : SMap) (row : List (List Char)), row ∈ rows → 2 ≤ row.length →
      rowLabel row ∈ fixedSet →
      rows.Pairwise (fun a b => a ≠ b → rowKey a ≠ rowKey b) →
      mapLookup (rows.foldl load_row_step acc) (rowKey row)
        = some (substInfo (rowLabel row)) := by
  induction rows with
  | nil => intro acc row hmem; simp at hmem
  | cons r rs ih =>
    intro acc row hmem hlen hlbl hpw
    rw [List.pairwise_cons] at hpw
    obtain ⟨hhead, htail⟩ := hpw
    rw [List.foldl_cons]
    rcases List.mem_cons.mp hmem with hrow | hrow
    · subst hrow
      have hstep : load_row_step acc row
          = mapInsert (rowKey row) (substInfo (rowLabel row)) acc := by
        rw [load_row_step_eq, if_neg (by omega), if_pos (mem_fixedSet_isSome hlbl)]
      rw [hstep]
      refine load_fold_keep rs _ _ _ (by simp [mapInsert, mapLookup]) ?_
      intro r' hmem' hkey'
      by_cases heq : row = r'
      · rw [heq]
      · exact absurd hkey'.symm (hhead r' hmem' heq)
    · exact ih _ row hrow hlen hlbl htail

/-- The claim C1 asserts in particular that a row whose label normalizes to
INFO maps its identifier to INFO; on the code the row maps to LOW instead,
because `load_severity_map` substitutes LOW for INFO before storing. -/
theorem c1_cex :
    mapLookup
      (load_severity_map (some [[['C','K','V','_','T','S','T'], ['i','n','f','o']]]))
      ['C','K','V','_','T','S','T'] = some strLOW ∧ strLOW ≠ strINFO := by
  constructor
  · rfl
  · decide

/-- Claim C1 (amended): for every row of the severity source whose severity
field, after uppercasing and trimming, is one of INFO, LOW, MEDIUM, HIGH,
CRITICAL, the map returned by `load_severity_map` contains that row's
(stripped) identifier mapped to that normalized label after the INFO-to-LOW
substitution — a row whose label normalizes to INFO maps its identifier to
LOW — provided no two distinct rows share an identifier (the data model
treats the identifier as a unique key). -/
theorem c1_load_map (rows : List (List (List Char))) (row : List (List Char))
    (hmem : row ∈ rows) (hlen : 2 ≤ row.length) (hlbl : rowLabel row ∈ fixedSet)
    (hpw : rows.Pairwise (fun a b => a ≠ b → rowKey a ≠ rowKey b)) :
    mapLookup (load_severity_map (some rows)) (rowKey row)
      = some (substInfo (rowLabel row)) :=
  load_fold_mem rows [] row hmem hlen hlbl hpw

def c1row : List (List Char) := [['C','K','V','_','A','W','S','_','1'], [' ','h','i','g','h']]

theorem c1_witness :
    mapLookup (load_severity_map (some [c1row])) (rowKey c1row)
      = some (substInfo (rowLabel c1row)) :=
  c1_load_map [c1row] c1row (by decide) (by decide) (by decide)
    (List.pairwise_singleton _ _)

/-! ### SARIF document model and update_sarif's pure enrichment -/

/-- A JSON object used as a bag of string-valued settings (the `properties`
and `defaultConfiguration` sub-objects of a rule). -/
abbrev Bag : Type := List (List Char × List Char)

/-- Dict assignment on a bag: replace the value of an existing key in place,
or append the key at the end (Python dict update semantics). -/
def bagSet (b : Bag) (k v : List Char) : Bag :=
  match b with
  | [] => [(k, v)]
  | (k', v') :: rest => if k' = k then (k, v) :: rest else (k', v') :: bagSet rest k v

/-- Read a key from an optional bag (`none` models an absent sub-object). -/
def bagGet (b : Option Bag) (k : List Char) : Option (List Char) :=
  match b with
  | none => none
  | some bag => assocLookup bag k

structure SarifRule where
  id : Option (List Char)
  properties : Option Bag
  defaultConfiguration : Option Bag
deriving DecidableEq

structure SarifDriver where
  rules : List SarifRule
deriving DecidableEq

structure SarifTool where
  driver : SarifDriver
deriving DecidableEq

structure SarifRun where
  tool : SarifTool
deriving DecidableEq

structure SarifDoc where
  runs : List SarifRun
deriving DecidableEq

def keySecSev : List Char :=
  ['s','e','c','u','r','i','t','y','-','s','e','v','e','r','i','t','y']

def keyLevel : List Char := ['l','e','v','e','l']

def tokCKV : List Char := ['C','K','V','_']
def tokCKV2 : List Char := ['C','K','V','2','_']
def tokCCL : List Char := ['C','C','L','_']

/-- Checkov rule identifiers start with CKV underscore or CKV2 underscore
(`rule_id.startswith(("CKV_", "CKV2_"))`). -/
def is_checkov_rule (rid : List Char) : Bool :=
  hasLead tokCKV rid || hasLead tokCKV2 rid

/-- The body of the rule loop in `update_sarif`: returns the (possibly
mutated) rule, the number of updates (0 or 1) and the missing identifiers
contributed.  `if not rule_id: continue` skips both an absent and an empty
identifier. -/
def update_rule (m : SMap) (rule : SarifRule) :
    SarifRule × Nat × List (List Char) :=
  match rule.id with
  | none => (rule, 0, [])
  | some rule_id =>
    if rule_id = [] then (rule, 0, [])
    else if is_checkov_rule rule_id then
      match mapLookup m rule_id with
      | some severity_label =>
        ({ rule with
            properties := some (bagSet (rule.properties.getD [])
              keySecSev (severity_to_score severity_label)),
            defaultConfiguration := some (bagSet (rule.defaultConfiguration.getD [])
              keyLevel (severity_to_level severity_label)) },
         1, [])
      | none => (rule, 0, [rule_id])
    else (rule, 0, [])

/-- The rule loop over one run's `tool.driver.rules` sequence. -/
def update_rules (m : SMap) : List SarifRule → List SarifRule × Nat × List (List Char)
  | [] => ([], 0, [])
  | r :: rest =>
    let a := update_rule m r
    let b := update_rules m rest
    (a.1 :: b.1, a.2.1 + b.2.1, a.2.2 ++ b.2.2)

/-- The run loop of `update_sarif`. -/
def update_runs (m : SMap) : List SarifRun → List SarifRun × Nat × List (List Char)
  | [] => ([], 0, [])
  | run :: rest =>
    let a := update_rules m run.tool.driver.rules
    let b := update_runs m rest
    (⟨⟨⟨a.1⟩⟩⟩ :: b.1, a.2.1 + b.2.1, a.2.2 ++ b.2.2)

/-- The in-memory enrichment performed by `update_sarif` between the read and
the write: the enriched document, the update count, and the list of in-scope
identifiers missing from the map (the script keeps them in a set; only
emptiness and size are ever used, so a list is an adequate model). -/
def update_sarif_doc (sarif_data : SarifDoc) (m : SMap) :
    SarifDoc × Nat × List (List Char) :=
  let a := update_runs m sarif_data.runs
  (⟨a.1⟩, a.2.1, a.2.2)

/-! ### C9: idempotence of the structured rewriter -/

theorem bagSet_idem (b : Bag) (k v : List Char) :
    bagSet (bagSet b k v) k v = bagSet b k v := by
  induction b with
  | nil => simp [bagSet]
  | cons kv rest ih =>
    obtain ⟨k', v'⟩ := kv
    by_cases h : k' = k
    · simp [bagSet, h]
    · simp [bagSet, h, ih]

theorem bagSet_get_self (b : Bag) (k v : List Char) :
    assocLookup (bagSet b k v) k = some v := by
  induction b with
  | nil => simp [bagSet, assocLookup]
  | cons kv rest ih =>
    obtain ⟨k', v'⟩ := kv
    by_cases h : k' = k
    · simp [bagSet, h, assocLookup]
    · simp [bagSet, h, assocLookup, ih]

theorem update_rule_idem (m : SMap) (r : SarifRule) :
    update_rule m (update_rule m r).1 = update_rule m r := by
  match hid : r.id with
  | none => simp [update_rule, hid]
  | some rid =>
    by_cases hnil : rid = []
    · simp [update_rule, hid, hnil]
    · by_cases hckv : is_checkov_rule rid = true
      · match hlk : mapLookup m rid with
        | some lbl =>
          simp only [update_rule, hid, hnil, hckv, hlk, if_neg hnil, if_pos hckv]
          simp [hid, hnil, hckv, hlk, Option.getD, bagSet_idem]
        | none => simp [update_rule, hid, hnil, hckv, hlk]
      · simp [update_rule, hid, hnil, hckv]

theorem update_rules_idem (m : SMap) (rs : List SarifRule) :
    update_rules m (update_rules m rs).1 = update_rules m rs := by
  induction rs with
  | nil => rfl
  | cons r rest ih =>
    simp only [update_rules, update_rule_idem, ih]

theorem update_runs_idem (m : SMap) (runs : List SarifRun) :
    update_runs m (update_runs m runs).1 = update_runs m runs := by
  induction runs with
  | nil => rfl
  | cons run rest ih =>
    simp only [update_runs, update_rules_idem, ih]

/-- Claim C9: the structured-report rewriter is idempotent — applying the
enrichment a second time to its own output reproduces the identical document,
update count and missing set (the same score and level values are
re-assigned, changing nothing). -/
theorem c9_sarif_idempotent (d : SarifDoc) (m : SMap) :
    update_sarif_doc (update_sarif_doc d m).1 m = update_sarif_doc d m := by
  simp only [update_sarif_doc, update_runs_idem]

/-! ### C5: scores and levels after structured enrichment -/

theorem update_rules_fst (m : SMap) (rs : List SarifRule) :
    (update_rules m rs).1 = rs.map (fun r => (update_rule m r).1) := by
  induction rs with
  | nil => rfl
  | cons r rest ih => simp [update_rules, ih]

theorem update_runs_fst (m : SMap) (runs : List SarifRun) :
    (update_runs m runs).1
      = runs.map (fun run => ⟨⟨⟨(update_rules m run.tool.driver.rules).1⟩⟩⟩) := by
  induction runs with
  | nil => rfl
  | cons run rest ih => simp [update_runs, ih]

/-- The rule at position `j` of run `i` of a document. -/
def getRule (d : SarifDoc) (i j : Nat) : Option SarifRule :=
  match d.runs[i]? with
  | none => none
  | some run => run.tool.driver.rules[j]?

theorem getRule_update (m : SMap) (doc : SarifDoc) (i j : Nat) :
    getRule (update_sarif_doc doc m).1 i j
      = (getRule doc i j).map (fun r => (update_rule m r).1) := by
  unfold getRule update_sarif_doc
  simp only [update_runs_fst, List.getElem?_map]
  cases doc.runs[i]? with
  | none => rfl
  | some run =>
    simp [update_rules_fst, List.getElem?_map]

/-- Claim C5: after enrichment, every rule whose identifier starts with a
recognized Checkov prefix and is present in the map carries
properties security-severity equal to the fixed score for its label and
defaultConfiguration level equal to the fixed level for its label (HIGH gives
score 8.0 and level error), while every rule outside the prefix families
(including rules with no identifier) is passed through unmodified. -/
theorem c5_enrichment (m : SMap) (doc : SarifDoc) (i j : Nat) (r : SarifRule)
    (h : getRule doc i j = some r) :
    (∀ rid lbl, r.id = some rid → is_checkov_rule rid = true →
       mapLookup m rid = some lbl →
       ∃ r', getRule (update_sarif_doc doc m).1 i j = some r' ∧
         r'.id = r.id ∧
         bagGet r'.properties keySecSev = some (severity_to_score lbl) ∧
         bagGet r'.defaultConfiguration keyLevel = some (severity_to_level lbl))
    ∧ (r.id = none → getRule (update_sarif_doc doc m).1 i j = some r)
    ∧ (∀ rid, r.id = some rid → is_checkov_rule rid = false →
         getRule (update_sarif_doc doc m).1 i j = some r)
    ∧ severity_to_score strHIGH = str80 ∧ severity_to_level strHIGH = strError := by
  have hupd : getRule (update_sarif_doc doc m).1 i j = some (update_rule m r).1 := by
    rw [getRule_update, h]; rfl
  refine ⟨?_, ?_, ?_, by decide, by decide⟩
  · intro rid lbl hid hckv hlk
    have hnil : ¬rid = [] := by
      intro hcon; rw [hcon] at hckv; exact absurd hckv (by decide)
    refine ⟨(update_rule m r).1, hupd, ?_, ?_, ?_⟩
    · simp [update_rule, hid, hnil, hckv, hlk]
    · simp [update_rule, hid, hnil, hckv, hlk, bagGet, bagSet_get_self]
    · simp [update_rule, hid, hnil, hckv, hlk, bagGet, bagSet_get_self]
  · intro hid
    rw [hupd]
    simp [update_rule, hid]
  · intro rid hid hckv
    rw [hupd]
    by_cases hnil : rid = []
    · simp [update_rule, hid, hnil]
    · simp [update_rule, hid, hnil, hckv]

def c5doc : SarifDoc := ⟨[⟨⟨⟨[⟨some ['C','K','V','_','A','W','S','_','1'], none, none⟩]⟩⟩⟩]⟩

def c5map : SMap := [(['C','K','V','_','A','W','S','_','1'], strHIGH)]

theorem c5_witness :
    ∃ r', getRule (update_sarif_doc c5doc c5map).1 0 0 = some r' ∧
      r'.id = some ['C','K','V','_','A','W','S','_','1'] ∧
      bagGet r'.properties keySecSev = some (severity_to_score strHIGH) ∧
      bagGet r'.defaultConfiguration keyLevel = some (severity_to_level strHIGH) := by
  have h := (c5_enrichment c5map c5doc 0 0
      ⟨some ['C','K','V','_','A','W','S','_','1'], none, none⟩ rfl).1
      ['C','K','V','_','A','W','S','_','1'] strHIGH rfl (by decide) rfl
  obtain ⟨r', h1, h2, h3, h4⟩ := h
  exact ⟨r', h1, by rw [h2], h3, h4⟩

/-! ### The text report rewriter (update_text_report) -/

def tokCheck : List Char := ['C','h','e','c','k',':']
def tokSeverity : List Char := ['S','e','v','e','r','i','t','y',':']

/-- One alternative of the identifier group of the marker regex: a literal
family lead segment followed by a nonempty greedy run of [A-Z0-9_]. -/
def tryFam (fam l : List Char) : Option (List Char) :=
  match stripLead fam l with
  | none => none
  | some rest =>
    if (rest.takeWhile isIdChar).isEmpty then none
    else some (fam ++ rest.takeWhile isIdChar)

/-- The capture group (CKV2 family, CKV family, CCL family) of the marker
regex, with the alternation order the regex engine uses: the optional 2 is
tried greedily first, then the CCL alternative. -/
def parseIdent (l : List Char) : Option (List Char) :=
  match tryFam tokCKV2 l with
  | some cid => some cid
  | none =>
    match tryFam tokCKV l with
    | some cid => some cid
    | none => tryFam tokCCL l

/-- `re_check_line.search(line)` for the anchored pattern: the line must start
with the literal Check-colon token, then one or more whitespace characters,
then an identifier of one of the three families; returns the capture group.
Because the identifier families start with a non-space character, the greedy
whitespace run is the maximal one. -/
def re_check_line_match (line : List Char) : Option (List Char) :=
  match stripLead tokCheck line with
  | none => none
  | some rest =>
    match rest with
    | [] => none
    | c :: rest2 =>
      if isPySpace c then parseIdent (rest2.dropWhile isPySpace) else none

/-- The substring test `"Severity:" in line`. -/
def hasSevTok (line : List Char) : Bool :=
  containsTok tokSeverity line

/-- The injected annotation line: tab, Severity-colon, space, label,
newline. -/
def sevLine (lbl : List Char) : List Char :=
  '\t' :: (tokSeverity ++ (' ' :: (lbl ++ ['\n'])))

/-- The loop of `update_text_report`, recursing over the remaining suffix of
the original line list.  At loop index i the code reads the lookahead lines
`lines[i+1]` and `lines[i+2]` (empty string when out of bounds); these are
exactly the first and second element of the remaining suffix, so the
structural recursion is the faithful rendering of the index loop. -/
def utr_go (m : SMap) : List (List Char) → List (List Char) × Nat
  | [] => ([], 0)
  | line :: rest =>
    match re_check_line_match line with
    | none => (line :: (utr_go m rest).1, (utr_go m rest).2)
    | some current_check_id =>
      -- next_line and second_line, with the out-of-bounds "" default
      if hasSevTok (rest.getD 0 []) || hasSevTok (rest.getD 1 []) then
        (line :: (utr_go m rest).1, (utr_go m rest).2)
      else
        match mapLookup m current_check_id with
        | some severity_label =>
          (line :: sevLine severity_label :: (utr_go m rest).1,
           (utr_go m rest).2 + 1)
        | none => (line :: (utr_go m rest).1, (utr_go m rest).2)

/-- The in-memory rewrite performed by `update_text_report` between the read
and the write: the rewritten line sequence and the insertion count. -/
def update_text_report (m : SMap) (lines : List (List Char)) :
    List (List Char) × Nat :=
  utr_go m lines

/-! ### C8: idempotence of the text rewriter -/

theorem hasLead_append_self (tok r : List Char) : hasLead tok (tok ++ r) = true := by
  induction tok with
  | nil => rfl
  | cons t ts ih => simp [hasLead, ih]

theorem containsTok_here (tok r : List Char) : containsTok tok (tok ++ r) = true := by
  cases tok with
  | nil => cases r <;> simp [containsTok, hasLead]
  | cons t ts =>
    show containsTok (t :: ts) (t :: (ts ++ r)) = true
    rw [containsTok]
    have h1 : hasLead (t :: ts) (t :: (ts ++ r)) = true := hasLead_append_self (t :: ts) r
    rw [h1, Bool.true_or]

theorem containsTok_skip (tok : List Char) (c : Char) (rest : List Char)
    (h : containsTok tok rest = true) : containsTok tok (c :: rest) = true := by
  rw [containsTok, h, Bool.or_true]

theorem hasSevTok_sevLine (lbl : List Char) : hasSevTok (sevLine lbl) = true :=
  containsTok_skip tokSeverity '\t' _ (containsTok_here tokSeverity _)

theorem re_check_sevLine (lbl : List Char) :
    re_check_line_match (sevLine lbl) = none := by
  simp [re_check_line_match, sevLine, tokCheck, stripLead]

theorem utr_cons_shape (m : SMap) (line : List Char) (rest : List (List Char)) :
    (utr_go m (line :: rest)).1 = line :: (utr_go m rest).1 ∨
    ∃ lbl, (utr_go m (line :: rest)).1 = line :: sevLine lbl :: (utr_go m rest).1 := by
  cases hm : re_check_line_match line with
  | none => left; simp only [utr_go, hm]
  | some cid =>
    by_cases hs : (hasSevTok (rest.getD 0 []) || hasSevTok (rest.getD 1 [])) = true
    · left; simp only [utr_go, hm]; rw [if_pos hs]
    · cases hlk : mapLookup m cid with
      | none => left; simp only [utr_go, hm]; rw [if_neg hs, hlk]
      | some lbl =>
        right
        exact ⟨lbl, by simp only [utr_go, hm]; rw [if_neg hs, hlk]⟩

theorem utr_getD0 (m : SMap) (ls : List (List Char)) :
    (utr_go m ls).1.getD 0 [] = ls.getD 0 [] := by
  cases ls with
  | nil => rfl
  | cons line rest =>
    rcases utr_cons_shape m line rest with h | ⟨lbl, h⟩ <;> rw [h] <;> rfl

theorem sev_lookahead_transfer (m : SMap) (rest : List (List Char))
    (h : (hasSevTok (rest.getD 0 []) || hasSevTok (rest.getD 1 [])) = true) :
    (hasSevTok ((utr_go m rest).1.getD 0 []) ||
      hasSevTok ((utr_go m rest).1.getD 1 [])) = true := by
  cases rest with
  | nil => exact absurd h (by decide)
  | cons r1 rest2 =>
    rcases utr_cons_shape m r1 rest2 with hsh | ⟨lbl, hsh⟩
    · rw [hsh]
      show (hasSevTok r1 || hasSevTok ((utr_go m rest2).1.getD 0 [])) = true
      rw [utr_getD0]
      exact h
    · rw [hsh]
      show (hasSevTok r1 || hasSevTok (sevLine lbl)) = true
      rw [hasSevTok_sevLine, Bool.or_true]

/-- A line list is saturated for a map when every marker line whose
identifier is in the map already has the severity token in one of its next
two lines; a rewriter pass over such a list inserts nothing. -/
def saturated (m : SMap) : List (List Char) → Prop
  | [] => True
  | l :: rest =>
    (∀ cid, re_check_line_match l = some cid → (mapLookup m cid).isSome = true →
       (hasSevTok (rest.getD 0 []) || hasSevTok (rest.getD 1 [])) = true)
    ∧ saturated m rest

theorem sat_noop (m : SMap) (ls : List (List Char)) (h : saturated m ls) :
    utr_go m ls = (ls, 0) := by
  induction ls with
  | nil => rfl
  | cons l rest ih =>
    obtain ⟨hhead, htail⟩ := h
    have ihr := ih htail
    cases hm : re_check_line_match l with
    | none => simp only [utr_go, hm]; rw [ihr]
    | some cid =>
      cases hlk : mapLookup m cid with
      | none =>
        by_cases hs : (hasSevTok (rest.getD 0 []) || hasSevTok (rest.getD 1 [])) = true
        · simp only [utr_go, hm]; rw [if_pos hs, ihr]
        · simp only [utr_go, hm]; rw [if_neg hs, hlk, ihr]
      | some lbl =>
        have hs := hhead cid hm (by rw [hlk]; rfl)
        simp only [utr_go, hm]; rw [if_pos hs, ihr]

theorem out_saturated (m : SMap) (ls : List (List Char)) :
    saturated m (utr_go m ls).1 := by
  induction ls with
  | nil => trivial
  | cons l rest ih =>
    cases hm : re_check_line_match l with
    | none =>
      have hsh : (utr_go m (l :: rest)).1 = l :: (utr_go m rest).1 := by
        simp only [utr_go, hm]
      rw [hsh]
      exact ⟨fun cid hcid _ => by rw [hm] at hcid; exact Option.noConfusion hcid, ih⟩
    | some cid =>
      by_cases hs : (hasSevTok (rest.getD 0 []) || hasSevTok (rest.getD 1 [])) = true
      · have hsh : (utr_go m (l :: rest)).1 = l :: (utr_go m rest).1 := by
          simp only [utr_go, hm]; rw [if_pos hs]
        rw [hsh]
        exact ⟨fun _ _ _ => sev_lookahead_transfer m rest hs, ih⟩
      · cases hlk : mapLookup m cid with
        | none =>
          have hsh : (utr_go m (l :: rest)).1 = l :: (utr_go m rest).1 := by
            simp only [utr_go, hm]; rw [if_neg hs, hlk]
          rw [hsh]
          refine ⟨fun cid' hcid' hsome' => ?_, ih⟩
          rw [hm] at hcid'
          injection hcid' with he
          subst he
          rw [hlk] at hsome'
          simp at hsome'
        | some lbl =>
          have hsh : (utr_go m (l :: rest)).1
              = l :: sevLine lbl :: (utr_go m rest).1 := by
            simp only [utr_go, hm]; rw [if_neg hs, hlk]
          rw [hsh]
          refine ⟨fun _ _ _ => ?_, fun cid' hcid' _ => ?_, ih⟩
          · show (hasSevTok (sevLine lbl)
                || hasSevTok ((utr_go m rest).1.getD 0 [])) = true
            rw [hasSevTok_sevLine, Bool.true_or]
          · rw [re_check_sevLine] at hcid'
            exact Option.noConfusion hcid'

/-- Claim C8: the text rewriter is idempotent — applied a second time to its
own output it inserts zero severity lines and returns the line sequence
unchanged. -/
theorem c8_text_idempotent (m : SMap) (ls : List (List Char)) :
    update_text_report m (update_text_report m ls).1
      = ((update_text_report m ls).1, 0) :=
  sat_noop m (utr_go m ls).1 (out_saturated m ls)

/-! ### Index-based characterization of the text rewriter -/

/-- Concatenation of per-index output blocks. -/
def catMap (f : Nat → List (List Char)) : List Nat → List (List Char)
  | [] => []
  | i :: is => f i ++ catMap f is

/-- The block the loop iteration at index i contributes to the output: the
original line itself, followed by an injected severity line exactly when the
line is a marker, neither of the next two original lines contains the
severity token, and the identifier is in the map. -/
def textOutAt (m : SMap) (ls : List (List Char)) (i : Nat) : List (List Char) :=
  match re_check_line_match (ls.getD i []) with
  | none => [ls.getD i []]
  | some cid =>
    if hasSevTok (ls.getD (i + 1) []) || hasSevTok (ls.getD (i + 2) []) then
      [ls.getD i []]
    else
      match mapLookup m cid with
      | some lbl => [ls.getD i [], sevLine lbl]
      | none => [ls.getD i []]

/-- Whether the loop iteration at index i inserts a severity line; the
lookahead reads the original line list at i+1 and i+2. -/
def insertsAt (m : SMap) (ls : List (List Char)) (i : Nat) : Bool :=
  match re_check_line_match (ls.getD i []) with
  | none => false
  | some cid =>
    if hasSevTok (ls.getD (i + 1) []) || hasSevTok (ls.getD (i + 2) []) then
      false
    else (mapLookup m cid).isSome

/-- Number of inserting indices in a given index list. -/
def countIns (m : SMap) (ls : List (List Char)) : List Nat → Nat
  | [] => 0
  | i :: is => countIns m ls is + (if insertsAt m ls i then 1 else 0)

theorem getD_drop_add (orig : List (List Char)) (k j : Nat) :
    (orig.drop k).getD j [] = orig.getD (k + j) [] := by
  rw [List.getD_eq_getElem?_getD, List.getElem?_drop, List.getD_eq_getElem?_getD]

theorem utr_go_drop (m : SMap) (orig : List (List Char)) :
    ∀ (n k : Nat), orig.length - k = n →
      utr_go m (orig.drop k) =
        (catMap (textOutAt m orig) (List.range' k n),
         countIns m orig (List.range' k n)) := by
  intro n
  induction n with
  | zero =>
    intro k hk
    have hdrop : orig.drop k = [] := List.drop_eq_nil_of_le (by omega)
    rw [hdrop]
    rfl
  | succ n ih =>
    intro k hk
    have hklt : k < orig.length := by omega
    have hgk : orig.getD k [] = orig[k] := by
      rw [List.getD_eq_getElem?_getD, List.getElem?_eq_getElem hklt]
      rfl
    have hdrop : orig.drop k = orig.getD k [] :: orig.drop (k + 1) := by
      rw [List.drop_eq_getElem_cons hklt, hgk]
    have h1 : (orig.drop (k + 1)).getD 0 [] = orig.getD (k + 1) [] := by
      rw [getD_drop_add]
    have h2 : (orig.drop (k + 1)).getD 1 [] = orig.getD (k + 2) [] := by
      rw [getD_drop_add]
    have hih := ih (k + 1) (by omega)
    rw [hdrop, List.range'_succ]
    cases hm : re_check_line_match (orig.getD k []) with
    | none =>
      simp only [utr_go, textOutAt, insertsAt, catMap, countIns, hm, hih]
      rfl
    | some cid =>
      by_cases hs : (hasSevTok (orig.getD (k + 1) []) ||
          hasSevTok (orig.getD (k + 2) [])) = true
      · simp only [utr_go, textOutAt, insertsAt, catMap, countIns, hm, h1, h2]
        rw [if_pos hs, if_pos hs, if_pos hs, hih]
        rfl
      · simp only [utr_go, textOutAt, insertsAt, catMap, countIns, hm, h1, h2]
        rw [if_neg hs, if_neg hs, if_neg hs]
        cases hlk : mapLookup m cid with
        | none => simp only [hlk, Option.isSome_none, hih]; rfl
        | some lbl => simp only [hlk, Option.isSome_some, hih]; rfl

/-- The recursive loop equals the index-based description over the original
list: each line is emitted verbatim in order, an inserted severity line
appears exactly after the inserting indices, and the count is the number of
inserting indices. -/
theorem utr_index (m : SMap) (ls : List (List Char)) :
    update_text_report m ls
      = (catMap (textOutAt m ls) (List.range ls.length),
         countIns m ls (List.range ls.length)) := by
  have h := utr_go_drop m ls ls.length 0 (by omega)
  rw [List.drop_zero] at h
  rw [update_text_report, h, List.range_eq_range']

theorem countIns_filter (m : SMap) (ls : List (List Char)) (idxs : List Nat) :
    countIns m ls idxs = (idxs.filter (fun i => insertsAt m ls i)).length := by
  induction idxs with
  | nil => rfl
  | cons i is ih =>
    rw [countIns, List.filter_cons, ih]
    by_cases h : insertsAt m ls i = true
    · rw [if_pos h, if_pos h, List.length_cons]
    · rw [if_neg h, if_neg h]
      rfl

/-! ### C7: declarative characterization of the check-block marker -/

theorem stripLead_of_append (pat r : List Char) : stripLead pat (pat ++ r) = some r := by
  induction pat with
  | nil => rfl
  | cons p ps ih => rw [List.cons_append, stripLead, if_pos rfl, ih]

theorem stripLead_some_eq (pat : List Char) :
    ∀ l r, stripLead pat l = some r → l = pat ++ r := by
  induction pat with
  | nil =>
    intro l r h
    simpa [stripLead] using h
  | cons p ps ih =>
    intro l r h
    cases l with
    | nil => exact Option.noConfusion h
    | cons c cs =>
      rw [stripLead] at h
      by_cases hpc : p = c
      · rw [if_pos hpc] at h
        rw [List.cons_append, ← ih cs r h, hpc]
      · rw [if_neg hpc] at h
        exact Option.noConfusion h

theorem dropWhile_head_false {p : Char → Bool} (l : List Char) :
    ∀ c, (l.dropWhile p).head? = some c → p c = false := by
  induction l with
  | nil => intro c h; exact Option.noConfusion h
  | cons a as ih =>
    intro c h
    rw [List.dropWhile_cons] at h
    by_cases hpa : p a = true
    · rw [if_pos hpa] at h
      exact ih c h
    · rw [if_neg hpa] at h
      simp only [List.head?_cons] at h
      injection h with he
      subst he
      simp at hpa
      exact hpa

theorem takeWhile_all_stop {p : Char → Bool} (t rest : List Char)
    (ht : ∀ c ∈ t, p c = true) (hr : ∀ c, rest.head? = some c → p c = false) :
    (t ++ rest).takeWhile p = t ∧ (t ++ rest).dropWhile p = rest := by
  induction t with
  | nil =>
    cases rest with
    | nil => exact ⟨rfl, rfl⟩
    | cons r rs =>
      have hpr : p r = false := hr r rfl
      constructor
      · show (r :: rs).takeWhile p = []
        rw [List.takeWhile_cons, hpr]
        rfl
      · show (r :: rs).dropWhile p = r :: rs
        rw [List.dropWhile_cons, hpr]
        rfl
  | cons a as ih =>
    have hpa : p a = true := ht a (List.mem_cons_self a as)
    have ihh := ih (fun c hc => ht c (List.mem_cons_of_mem a hc))
    constructor
    · rw [List.cons_append, List.takeWhile_cons, hpa, if_pos rfl, ihh.1]
    · rw [List.cons_append, List.dropWhile_cons, hpa, if_pos rfl, ihh.2]

theorem tryFam_some (fam l cid : List Char) (h : tryFam fam l = some cid) :
    ∃ t rest2, l = fam ++ (t ++ rest2) ∧ cid = fam ++ t ∧ t ≠ [] ∧
      (∀ c ∈ t, isIdChar c = true) ∧
      (∀ c, rest2.head? = some c → isIdChar c = false) := by
  cases hsl : stripLead fam l with
  | none =>
    simp only [tryFam, hsl] at h
    exact Option.noConfusion h
  | some r =>
    simp only [tryFam, hsl] at h
    by_cases he : (r.takeWhile isIdChar).isEmpty = true
    · rw [if_pos he] at h
      exact Option.noConfusion h
    · rw [if_neg he] at h
      injection h with hcid
      refine ⟨r.takeWhile isIdChar, r.dropWhile isIdChar, ?_, hcid.symm, ?_, ?_, ?_⟩
      · rw [List.takeWhile_append_dropWhile]
        exact stripLead_some_eq fam l r hsl
      · intro hcon
        rw [hcon] at he
        exact he rfl
      · intro c hc
        exact List.mem_takeWhile_imp hc
      · exact dropWhile_head_false r

theorem tryFam_of (fam t rest2 : List Char) (htne : t ≠ [])
    (hall : ∀ c ∈ t, isIdChar c = true)
    (hstop : ∀ c, rest2.head? = some c → isIdChar c = false) :
    tryFam fam (fam ++ (t ++ rest2)) = some (fam ++ t) := by
  have htw : (t ++ rest2).takeWhile isIdChar = t :=
    (takeWhile_all_stop t rest2 hall hstop).1
  have hne : ¬(t.isEmpty = true) := by
    cases t with
    | nil => exact absurd rfl htne
    | cons a as => simp
  simp only [tryFam, stripLead_of_append, htw]
  rw [if_neg hne]

theorem tryFam_none (fam l : List Char) (h : stripLead fam l = none) :
    tryFam fam l = none := by
  simp only [tryFam, h]

theorem stripLead_ckv2_ckv (x : List Char) : stripLead tokCKV2 (tokCKV ++ x) = none := rfl

theorem stripLead_ckv2_ccl (x : List Char) : stripLead tokCKV2 (tokCCL ++ x) = none := rfl

theorem stripLead_ckv_ccl (x : List Char) : stripLead tokCKV (tokCCL ++ x) = none := rfl

theorem parseIdent_some (l cid : List Char) (h : parseIdent l = some cid) :
    ∃ fam t rest2, (fam = tokCKV ∨ fam = tokCKV2 ∨ fam = tokCCL) ∧
      l = fam ++ (t ++ rest2) ∧ cid = fam ++ t ∧ t ≠ [] ∧
      (∀ c ∈ t, isIdChar c = true) ∧
      (∀ c, rest2.head? = some c → isIdChar c = false) := by
  cases h2 : tryFam tokCKV2 l with
  | some c2 =>
    simp only [parseIdent, h2] at h
    injection h with he
    subst he
    obtain ⟨t, r2, ha, hb, hc, hd, hf⟩ := tryFam_some _ _ _ h2
    exact ⟨tokCKV2, t, r2, Or.inr (Or.inl rfl), ha, hb, hc, hd, hf⟩
  | none =>
    cases h3 : tryFam tokCKV l with
    | some c3 =>
      simp only [parseIdent, h2, h3] at h
      injection h with he
      subst he
      obtain ⟨t, r2, ha, hb, hc, hd, hf⟩ := tryFam_some _ _ _ h3
      exact ⟨tokCKV, t, r2, Or.inl rfl, ha, hb, hc, hd, hf⟩
    | none =>
      simp only [parseIdent, h2, h3] at h
      obtain ⟨t, r2, ha, hb, hc, hd, hf⟩ := tryFam_some _ _ _ h
      exact ⟨tokCCL, t, r2, Or.inr (Or.inr rfl), ha, hb, hc, hd, hf⟩

theorem parseIdent_of_fam (fam t rest2 : List Char)
    (hfam : fam = tokCKV ∨ fam = tokCKV2 ∨ fam = tokCCL) (htne : t ≠ [])
    (hall : ∀ c ∈ t, isIdChar c = true)
    (hstop : ∀ c, rest2.head? = some c → isIdChar c = false) :
    parseIdent (fam ++ (t ++ rest2)) = some (fam ++ t) := by
  have hof := tryFam_of fam t rest2 htne hall hstop
  rcases hfam with hf | hf | hf <;> subst hf
  · have hA : tryFam tokCKV2 (tokCKV ++ (t ++ rest2)) = none :=
      tryFam_none _ _ (stripLead_ckv2_ckv _)
    simp only [parseIdent, hA, hof]
  · simp only [parseIdent, hof]
  · have hA : tryFam tokCKV2 (tokCCL ++ (t ++ rest2)) = none :=
      tryFam_none _ _ (stripLead_ckv2_ccl _)
    have hB : tryFam tokCKV (tokCCL ++ (t ++ rest2)) = none :=
      tryFam_none _ _ (stripLead_ckv_ccl _)
    simp only [parseIdent, hA, hB, hof]

/-- A family identifier as the specification describes it: one of the three
accepted lead segments followed by a nonempty run of identifier
characters. -/
def FamilyOk (cid : List Char) : Prop :=
  ∃ fam t, (fam = tokCKV ∨ fam = tokCKV2 ∨ fam = tokCCL) ∧
    cid = fam ++ t ∧ t ≠ [] ∧ ∀ c ∈ t, isIdChar c = true

/-- The specification-side reading of the marker sentence, for comparison
with the code's regular expression: the line begins with the literal
Check-colon token, followed by nonempty whitespace, then the identifier from
one of the three families, whose identifier-character run is maximal in the
line. -/
def IsCheckMarker (line cid : List Char) : Prop :=
  ∃ ws rest, line = tokCheck ++ (ws ++ (cid ++ rest)) ∧ ws ≠ [] ∧
    (∀ c ∈ ws, isPySpace c = true) ∧ FamilyOk cid ∧
    (∀ c, rest.head? = some c → isIdChar c = false)

theorem re_check_of_some (line cid : List Char)
    (h : re_check_line_match line = some cid) : IsCheckMarker line cid := by
  cases hsl : stripLead tokCheck line with
  | none =>
    simp only [re_check_line_match, hsl] at h
    exact Option.noConfusion h
  | some rest =>
    cases rest with
    | nil =>
      simp only [re_check_line_match, hsl] at h
      exact Option.noConfusion h
    | cons c rest2 =>
      simp only [re_check_line_match, hsl] at h
      by_cases hc : isPySpace c = true
      · rw [if_pos hc] at h
        obtain ⟨fam, t, r3, hfam, htl, hcid, htne, hall, hstop⟩ :=
          parseIdent_some _ _ h
        refine ⟨c :: rest2.takeWhile isPySpace, r3, ?_, by simp, ?_,
          ⟨fam, t, hfam, hcid, htne, hall⟩, hstop⟩
        · have hline : line = tokCheck ++ (c :: rest2) :=
            stripLead_some_eq _ _ _ hsl
          rw [hline]
          congr 1
          rw [List.cons_append]
          congr 1
          rw [hcid, List.append_assoc, ← htl, List.takeWhile_append_dropWhile]
        · intro c' hc'
          rcases List.mem_cons.mp hc' with he | hmem
          · rw [he]; exact hc
          · exact List.mem_takeWhile_imp hmem
      · rw [if_neg hc] at h
        exact Option.noConfusion h

theorem re_check_of_marker (line cid : List Char) (h : IsCheckMarker line cid) :
    re_check_line_match line = some cid := by
  obtain ⟨ws, rest, hline, hwne, hws, ⟨fam, t, hfam, hcid, htne, hall⟩, hstop⟩ := h
  cases ws with
  | nil => exact absurd rfl hwne
  | cons w ws2 =>
    have hw : isPySpace w = true := hws w (List.mem_cons_self w ws2)
    have hws2 : ∀ c ∈ ws2, isPySpace c = true :=
      fun c hc => hws c (List.mem_cons_of_mem w hc)
    have hheadC : ∀ c, ((cid ++ rest).head? = some c) → isPySpace c = false := by
      intro c hc
      have hC : (cid ++ rest).head? = some 'C' := by
        rcases hfam with hf | hf | hf <;> subst hf <;> rw [hcid] <;> rfl
      rw [hC] at hc
      injection hc with he
      subst he
      decide
    have hdw : (ws2 ++ (cid ++ rest)).dropWhile isPySpace = cid ++ rest :=
      (takeWhile_all_stop ws2 (cid ++ rest) hws2 hheadC).2
    rw [List.cons_append] at hline
    have hstep : stripLead tokCheck
        (tokCheck ++ (w :: (ws2 ++ (cid ++ rest))))
        = some (w :: (ws2 ++ (cid ++ rest))) := stripLead_of_append _ _
    rw [hline]
    simp only [re_check_line_match, hstep]
    rw [if_pos hw, hdw, hcid, List.append_assoc]
    exact parseIdent_of_fam fam t rest hfam htne hall hstop

/-- Claim C7: a line is treated as a check-block marker exactly when it
begins with the literal Check-colon token followed by whitespace and an
identifier from one of the three accepted families (the CKV, CKV2 and CCL
underscore families); and the rewritten output is the in-order concatenation
of per-line blocks: every line passes through verbatim, and a marked line
whose identifier is in the map and with no severity token in the next two
lines is followed by exactly one inserted tab-indented severity line. -/
theorem c7_marker_and_insert (m : SMap) (ls : List (List Char)) :
    (∀ line cid, re_check_line_match line = some cid ↔ IsCheckMarker line cid)
    ∧ (update_text_report m ls).1 = catMap (textOutAt m ls) (List.range ls.length) := by
  constructor
  · intro line cid
    exact ⟨re_check_of_some line cid, re_check_of_marker line cid⟩
  · rw [utr_index]

/-! ### C10: the duplicate guard is a substring test on the original lines -/

theorem hasLead_iff (tok : List Char) :
    ∀ l, hasLead tok l = true ↔ ∃ post, l = tok ++ post := by
  induction tok with
  | nil =>
    intro l
    exact ⟨fun _ => ⟨l, rfl⟩, fun _ => rfl⟩
  | cons t ts ih =>
    intro l
    cases l with
    | nil =>
      constructor
      · intro h
        exact absurd h (by rw [hasLead]; simp)
      · rintro ⟨post, hp⟩
        exact absurd hp (by simp)
    | cons c cs =>
      rw [hasLead]
      constructor
      · intro h
        obtain ⟨h1, h2⟩ := Bool.and_eq_true_iff.mp h
        have htc : t = c := of_decide_eq_true h1
        obtain ⟨post, hp⟩ := (ih cs).mp h2
        refine ⟨post, ?_⟩
        rw [List.cons_append, ← htc, hp]
      · rintro ⟨post, hp⟩
        rw [List.cons_append] at hp
        injection hp with he1 he2
        apply Bool.and_eq_true_iff.mpr
        constructor
        · exact decide_eq_true he1.symm
        · exact (ih cs).mpr ⟨post, he2⟩

theorem containsTok_iff (tok : List Char) :
    ∀ l, containsTok tok l = true ↔ ∃ pre post, l = pre ++ (tok ++ post) := by
  intro l
  induction l with
  | nil =>
    rw [containsTok, hasLead_iff]
    constructor
    · rintro ⟨post, hp⟩
      exact ⟨[], post, hp⟩
    · rintro ⟨pre, post, hp⟩
      cases pre with
      | nil => exact ⟨post, hp⟩
      | cons p ps => exact absurd hp (by simp)
  | cons c cs ih =>
    rw [containsTok, Bool.or_eq_true, hasLead_iff, ih]
    constructor
    · rintro (⟨post, hp⟩ | ⟨pre, post, hp⟩)
      · exact ⟨[], post, hp⟩
      · refine ⟨c :: pre, post, ?_⟩
        rw [List.cons_append, ← hp]
    · rintro ⟨pre, post, hp⟩
      cases pre with
      | nil => exact Or.inl ⟨post, hp⟩
      | cons p ps =>
        right
        rw [List.cons_append] at hp
        injection hp with he1 he2
        exact ⟨ps, post, he2⟩

/-- Claim C10: the duplicate-annotation guard of the text rewriter is a plain
substring test evaluated on the original input: the severity check holds of a
line exactly when the Severity-colon token occurs contiguously anywhere in it
(also inside text that is not an annotation), and the number of inserted
lines equals the number of indices of the original line list at which the
marker fires, the identifier is in the map, and neither original line i+1 nor
i+2 contains that substring — the lookahead never reads the output being
built. -/
theorem c10_guard_original (m : SMap) (ls : List (List Char)) :
    (∀ l : List Char, hasSevTok l = true ↔ ∃ pre post, l = pre ++ (tokSeverity ++ post))
    ∧ (update_text_report m ls).2
        = ((List.range ls.length).filter (fun i => insertsAt m ls i)).length := by
  constructor
  · intro l
    exact containsTok_iff tokSeverity l
  · rw [utr_index, ← countIns_filter]

/-! ### The orchestrator: main, its filesystem effects and exit status -/

/-- The stored structured-report input file: either content that raises on
`json.load` (`update_sarif` catches only FileNotFoundError, not
JSONDecodeError), or a document of the expected shape. -/
inductive SarifFile : Type
  | malformed : SarifFile
  | wellFormed : SarifDoc → SarifFile
deriving DecidableEq

/-- The uncaught Python exceptions the model tracks. -/
inductive PyErr : Type
  | jsonDecodeError : PyErr
  | writeError : PyErr
deriving DecidableEq

/-- One report directory: the contents of the four file paths the script
touches (`none` = the file does not exist) plus environment permission flags
deciding whether opening an output for writing or unlinking an input
raises. -/
structure DirState where
  input_sarif : Option SarifFile
  output_sarif : Option SarifDoc
  input_txt : Option (List (List Char))
  output_txt : Option (List (List Char))
  sarif_write_ok : Bool
  txt_write_ok : Bool
  sarif_delete_ok : Bool
  txt_delete_ok : Bool
deriving DecidableEq

/-- `update_sarif(input_sarif, output_sarif, severity_map)` with its
filesystem effects: an absent input is caught (FileNotFoundError) and the
function returns without writing; a malformed input raises an uncaught
JSONDecodeError before any write; a well-formed input is enriched in memory
and then written to the output path by the function itself. -/
def update_sarif (m : SMap) (st : DirState) : DirState × Option PyErr :=
  match st.input_sarif with
  | none => (st, none)
  | some SarifFile.malformed => (st, some PyErr.jsonDecodeError)
  | some (SarifFile.wellFormed d) =>
    if st.sarif_write_ok then
      ({ st with output_sarif := some (update_sarif_doc d m).1 }, none)
    else (st, some PyErr.writeError)

/-- `update_text_report(input_txt, output_txt, severity_map)` with its
filesystem effects (the in-memory rewrite itself is `update_text_report`
above): absent input caught, otherwise rewrite and write the output. -/
def update_text_fs (m : SMap) (st : DirState) : DirState × Option PyErr :=
  match st.input_txt with
  | none => (st, none)
  | some lines =>
    if st.txt_write_ok then
      ({ st with output_txt := some (update_text_report m lines).1 }, none)
    else (st, some PyErr.writeError)

/-- The final try block of the loop body of `main`: unlink the original
inputs that exist, sarif first; an exception inside the try is caught as a
warning and skips the remainder of the block, so a failed sarif unlink also
skips the txt unlink. -/
def delete_inputs (st : DirState) : DirState :=
  if st.input_sarif.isSome then
    if st.sarif_delete_ok then
      if st.input_txt.isSome then
        if st.txt_delete_ok then { st with input_sarif := none, input_txt := none }
        else { st with input_sarif := none }
      else { st with input_sarif := none }
    else st
  else
    if st.input_txt.isSome then
      if st.txt_delete_ok then { st with input_txt := none }
      else st
    else st

/-- One iteration of the directory loop of `main`: `update_sarif`, then the
text rewriter, then the deletion try block; an uncaught exception stops the
iteration where it occurred and propagates. -/
def process_dir (m : SMap) (st : DirState) : DirState × Option PyErr :=
  match update_sarif m st with
  | (st1, some e) => (st1, some e)
  | (st1, none) =>
    match update_text_fs m st1 with
    | (st2, some e) => (st2, some e)
    | (st2, none) => (delete_inputs st2, none)

/-- The directory loop: an uncaught exception aborts the loop, leaving the
remaining directories untouched. -/
def run_dirs (m : SMap) : List DirState → List DirState × Option PyErr
  | [] => ([], none)
  | d :: rest =>
    match process_dir m d with
    | (d1, some e) => (d1 :: rest, some e)
    | (d1, none) => (d1 :: (run_dirs m rest).1, (run_dirs m rest).2)

/-- The script's `main`, returning the final directory states and the
process exit status (Lean reserves the name `main` for executables, hence
`main_run`).  The script never calls `sys.exit`: a plain return from `main`
exits the process with status 0, an uncaught exception with status 1.  When
the loaded severity map is empty (source absent, or no valid row), `main`
returns before the directory loop. -/
def main_run (csv_file : Option (List (List (List Char)))) (dirs : List DirState) :
    List DirState × Nat :=
  if mapIsEmpty (load_severity_map csv_file) then (dirs, 0)
  else
    match run_dirs (load_severity_map csv_file) dirs with
    | (ds, none) => (ds, 0)
    | (ds, some _) => (ds, 1)

theorem run_dirs_cons_err (m : SMap) (d : DirState) (rest : List DirState)
    (d1 : DirState) (e : PyErr) (h : process_dir m d = (d1, some e)) :
    run_dirs m (d :: rest) = (d1 :: rest, some e) := by
  simp only [run_dirs, h]

theorem run_dirs_cons_ok (m : SMap) (d : DirState) (rest : List DirState)
    (d1 : DirState) (h : process_dir m d = (d1, none)) :
    run_dirs m (d :: rest) = (d1 :: (run_dirs m rest).1, (run_dirs m rest).2) := by
  simp only [run_dirs, h]

/-! ### C2: behaviour when the severity source cannot be loaded -/

def c2doc : SarifDoc := ⟨[⟨⟨⟨[⟨some ['C','K','V','_','X'], none, none⟩]⟩⟩⟩]⟩

def c2dir : DirState :=
  ⟨some (SarifFile.wellFormed c2doc), none, some [['x','\n']], none,
   true, true, true, true⟩

/-- The claim C2 asserts that with an absent severity source the whole run
terminates with a failed, non-zero outcome.  On the code `main` merely
returns after printing, so the process exits with status 0 — here shown for
an absent source and one untouched directory full of deletable inputs. -/
theorem c2_cex : main_run none [c2dir] = ([c2dir], 0) := rfl

/-- Claim C2 (amended): if the severity source cannot be loaded at all (the
map comes back empty — absent file or no valid row), `main` returns before
touching any directory: no output file is written and no input file is
deleted; however the process exits with status 0, not with a non-zero failed
outcome. -/
theorem c2_empty_map_early_return (csv : Option (List (List (List Char))))
    (dirs : List DirState) (h : mapIsEmpty (load_severity_map csv) = true) :
    main_run csv dirs = (dirs, 0) := by
  rw [main_run, if_pos h]

theorem c2_witness : main_run (some [[['x']]]) [c2dir] = ([c2dir], 0) :=
  c2_empty_map_early_return (some [[['x']]]) [c2dir] rfl

/-! ### C3: error containment across directories -/

def c3map : SMap := [(['C','K','V','_','X'], strHIGH)]

def c3lines : List (List Char) :=
  [['C','h','e','c','k',':',' ','C','K','V','_','X','\n']]

def c3d1 : DirState :=
  ⟨some SarifFile.malformed, none, some c3lines, none, true, true, true, true⟩

def c3d2 : DirState :=
  ⟨some (SarifFile.wellFormed c2doc), none, some c3lines, none,
   true, true, true, true⟩

/-- The claim C3 asserts that a structured report that does not parse only
abandons that directory's structured enrichment, its text enrichment still
running and the remaining directories still being processed.  On the code the
JSONDecodeError is uncaught (`update_sarif` catches only FileNotFoundError),
so the run aborts: with two directories of which the first holds a malformed
structured report, both are left untouched — the first directory's text
report is never enriched and the second directory is never processed. -/
theorem c3_cex :
    run_dirs c3map [c3d1, c3d2] = ([c3d1, c3d2], some PyErr.jsonDecodeError)
    ∧ c3d1.input_txt = some c3lines ∧ c3d1.output_txt = none
    ∧ c3d2.output_sarif = none ∧ c3d2.output_txt = none :=
  ⟨rfl, rfl, rfl, rfl, rfl⟩

/-- Claim C3 (amended): the per-directory containment holds for an ABSENT
structured report: that directory's structured enrichment is skipped while
its text enrichment still runs, and the remaining directories are still
processed.  A structured report that raises on parsing (MalformedDocument),
however, aborts the whole run: that directory is left exactly as it was — in
particular its text enrichment does not run — and the remaining directories
are not processed. -/
theorem c3_containment (m : SMap) (st : DirState) (rest : List DirState) :
    (∀ lines, st.input_sarif = none → st.input_txt = some lines →
       st.txt_write_ok = true →
       run_dirs m (st :: rest)
         = (delete_inputs { st with output_txt := some (update_text_report m lines).1 }
              :: (run_dirs m rest).1,
            (run_dirs m rest).2))
    ∧ (st.input_sarif = some SarifFile.malformed →
       run_dirs m (st :: rest) = (st :: rest, some PyErr.jsonDecodeError)) := by
  constructor
  · intro lines h1 h2 h3
    have hpd : process_dir m st
        = (delete_inputs { st with output_txt := some (update_text_report m lines).1 },
           none) := by
      have hu : update_sarif m st = (st, none) := by
        simp only [update_sarif, h1]
      have ht : update_text_fs m st
          = ({ st with output_txt := some (update_text_report m lines).1 }, none) := by
        simp only [update_text_fs, h2]
        rw [if_pos h3]
      simp only [process_dir, hu, ht]
    exact run_dirs_cons_ok m st rest _ hpd
  · intro h1
    have hpd : process_dir m st = (st, some PyErr.jsonDecodeError) := by
      have hu : update_sarif m st = (st, some PyErr.jsonDecodeError) := by
        simp only [update_sarif, h1]
      simp only [process_dir, hu]
    exact run_dirs_cons_err m st rest _ _ hpd

theorem c3_witness :
    run_dirs c3map [c3d1] = ([c3d1], some PyErr.jsonDecodeError) :=
  (c3_containment c3map c3d1 []).2 rfl

/-! ### C4: who persists the enriched structured report -/

theorem update_text_fs_keeps_output_sarif (m : SMap) (st : DirState) :
    (update_text_fs m st).1.output_sarif = st.output_sarif := by
  cases hit : st.input_txt with
  | none => simp only [update_text_fs, hit]
  | some lines =>
    by_cases hw : st.txt_write_ok = true
    · simp only [update_text_fs, hit]
      rw [if_pos hw]
    · simp only [update_text_fs, hit]
      rw [if_neg hw]

theorem delete_inputs_keeps_output_sarif (st : DirState) :
    (delete_inputs st).output_sarif = st.output_sarif := by
  obtain ⟨is, os, it, ot, sw, tw, sd, td⟩ := st
  rcases is with _ | f <;> rcases it with _ | ls <;> cases sd <;> cases td <;>
    simp [delete_inputs]

def c4map : SMap := [(['C','K','V','_','X'], strHIGH)]

def c4doc : SarifDoc := ⟨[⟨⟨⟨[⟨some ['C','K','V','_','X'], none, none⟩]⟩⟩⟩]⟩

def c4dir : DirState :=
  ⟨some (SarifFile.wellFormed c4doc), none, none, none, true, true, true, true⟩

/-- The claim C4 asserts that the structured-report rewriter performs no
storage writes, persistence being the orchestrator's job.  On the code
`update_sarif` opens the output path and dumps the document itself
(lines 101-102): after the `update_sarif` step alone — before the
orchestrator does anything further — the output file has appeared. -/
theorem c4_cex :
    (update_sarif c4map c4dir).1.output_sarif ≠ c4dir.output_sarif := by
  decide

/-- Claim C4 (amended): the structured-report rewriter itself persists the
enriched document: for every well-formed input document with a writable
output path, the filesystem effect of `update_sarif` is exactly the write of
the enriched document to the output path (no error), and the orchestrator
adds no separate persistence step — after the whole directory iteration the
output path carries exactly the document `update_sarif` wrote. -/
theorem c4_rewriter_writes (m : SMap) (st : DirState) (d : SarifDoc)
    (h1 : st.input_sarif = some (SarifFile.wellFormed d))
    (h2 : st.sarif_write_ok = true) :
    update_sarif m st
      = ({ st with output_sarif := some (update_sarif_doc d m).1 }, none)
    ∧ (process_dir m st).1.output_sarif = some (update_sarif_doc d m).1 := by
  have hu : update_sarif m st
      = ({ st with output_sarif := some (update_sarif_doc d m).1 }, none) := by
    simp only [update_sarif, h1]
    rw [if_pos h2]
  refine ⟨hu, ?_⟩
  have hts := update_text_fs_keeps_output_sarif m
    { st with output_sarif := some (update_sarif_doc d m).1 }
  rcases hstep : update_text_fs m
      { st with output_sarif := some (update_sarif_doc d m).1 } with ⟨st2, e2⟩
  rw [hstep] at hts
  cases e2 with
  | some err =>
    simp only [process_dir, hu, hstep]
    exact hts
  | none =>
    simp only [process_dir, hu, hstep]
    rw [delete_inputs_keeps_output_sarif]
    exact hts

theorem c4_witness :
    update_sarif c4map c4dir
      = ({ c4dir with output_sarif := some (update_sarif_doc c4doc c4map).1 }, none)
    ∧ (process_dir c4map c4dir).1.output_sarif
      = some (update_sarif_doc c4doc c4map).1 :=
  c4_rewriter_writes c4map c4dir c4doc rfl rfl

/-! ### C6: deletion strictly after successful writes -/

/-- Claim C6: per directory, the orchestrator deletes an original input only
after the enrichment writes for that directory completed successfully: if any
original input disappeared, the iteration raised no error and each input that
was present got its enriched output written; on any failure before or during
writing, both originals are left in place; and a directory is never left with
neither an original nor an enriched artifact for either of its two report
files. -/
theorem c6_delete_after_write (m : SMap) (st : DirState) :
    (((process_dir m st).1.input_sarif ≠ st.input_sarif ∨
      (process_dir m st).1.input_txt ≠ st.input_txt) →
       (process_dir m st).2 = none
       ∧ (∀ d, st.input_sarif = some (SarifFile.wellFormed d) →
            (process_dir m st).1.output_sarif = some (update_sarif_doc d m).1)
       ∧ (∀ ls, st.input_txt = some ls →
            (process_dir m st).1.output_txt = some (update_text_report m ls).1))
    ∧ ((process_dir m st).2 ≠ none →
         (process_dir m st).1.input_sarif = st.input_sarif
         ∧ (process_dir m st).1.input_txt = st.input_txt)
    ∧ (∀ f, st.input_sarif = some f →
         (process_dir m st).1.input_sarif = some f
         ∨ (process_dir m st).1.output_sarif ≠ none)
    ∧ (∀ ls, st.input_txt = some ls →
         (process_dir m st).1.input_txt = some ls
         ∨ (process_dir m st).1.output_txt ≠ none) := by
  obtain ⟨is, os, it, ot, sw, tw, sd, td⟩ := st
  rcases is with _ | (_ | d) <;> rcases it with _ | ls <;>
    cases sw <;> cases tw <;> cases sd <;> cases td <;>
      simp [process_dir, update_sarif, update_text_fs, delete_inputs]

def c6map : SMap := [(['C','K','V','_','X'], strHIGH)]

def c6doc : SarifDoc := ⟨[⟨⟨⟨[⟨some ['C','K','V','_','X'], none, none⟩]⟩⟩⟩]⟩

def c6lines : List (List Char) :=
  [['C','h','e','c','k',':',' ','C','K','V','_','X','\n']]

def c6dir : DirState :=
  ⟨some (SarifFile.wellFormed c6doc), none, some c6lines, none,
   true, true, true, true⟩

theorem c6_witness :
    (process_dir c6map c6dir).2 = none
    ∧ (process_dir c6map c6dir).1.output_sarif
        = some (update_sarif_doc c6doc c6map).1
    ∧ (process_dir c6map c6dir).1.output_txt
        = some (update_text_report c6map c6lines).1 := by
  have h := (c6_delete_after_write c6map c6dir).1 (Or.inl (by decide))
  exact ⟨h.1, h.2.1 c6doc rfl, h.2.2 c6lines rfl⟩
